import Mathlib

/-!
Shallow embedding of `src/cmd/entmaid.go` (package `cmd` of lespea/entmaid).

The program walks an ent schema graph (`gen.Graph` from `entgo.io/ent/entc/gen`,
an external read-only input) and emits Mermaid ER-diagram text, then splices
that text into a target file between two marker strings.

The external graph model is embedded as plain records carrying exactly the
data the program reads: `Node.Name`, `Node.HasOneFieldID()`, `Node.ID`
(name and `Type.String()`), `Node.Fields`, `Node.ForeignKeys`
(`UserDefined`, `Field`), `Node.Edges`; an `Edge`'s `Name`, `Rel`
(`Type`, `Table`, `Columns`), `IsInverse()`, `Ref` (of which only `Ref.Name`
is read, via `getEdgeRefName`), and `Type.Name` (the target entity's name).

Strings are modelled at the character level; a `strings.Builder`'s sequence
of appends is modelled as concatenation of the appended pieces in order
(`strings.Builder.WriteString` never returns a non-nil error, so
`generateMermaidCode` is pure). File reads/writes in `insertMultiLineString`
are modelled by passing the file's content in and returning the written
content out (`SpliceResult.ok`), an error return (`SpliceResult.err`), or a
runtime slice-bounds panic (`SpliceResult.sliceOutOfRange`).
-/

namespace Entmaid

/-- Cardinality kind of a relation (entc/gen `Rel.Type`): unknown,
one-to-one, one-to-many, many-to-one, many-to-many. -/
inductive RelType
| unk
| o2o
| o2m
| m2o
| m2m
deriving DecidableEq, BEq

/-- The relation descriptor of an edge (entc/gen `Rel`): its cardinality
kind, the relation table name, and the relation column names. -/
structure Rel where
  rtype : RelType
  table : String
  columns : List String
deriving DecidableEq

/-- A schema field: its name and the string rendering of its type
(`Field.Type.String()` in Go). -/
structure Field where
  name : String
  ftype : String
deriving DecidableEq

/-- A foreign-key descriptor: the `UserDefined` flag and the backing field. -/
structure ForeignKey where
  userDefined : Bool
  field : Field
deriving DecidableEq

/-- A schema edge: name, relation descriptor, the inverse-direction flag
(`Edge.IsInverse()` in Go), the counterpart edge reference (`Edge.Ref` is a
nullable pointer of which the program reads only `Ref.Name`, so it is
embedded as `Option String`), and the target entity's name (`Edge.Type.Name`). -/
structure Edge where
  name : String
  rel : Rel
  isInverse : Bool
  ref : Option String
  typeName : String
deriving DecidableEq

/-- A schema node (entity): name, whether it has a single-field id
(`Node.HasOneFieldID()`), the id field (read only when the flag is set),
the fields, foreign keys and edges, each in graph order. -/
structure Node where
  name : String
  hasOneFieldID : Bool
  id : Field
  fields : List Field
  foreignKeys : List ForeignKey
  edges : List Edge
deriving DecidableEq

/-- The schema graph: its nodes in graph order. -/
structure Graph where
  nodes : List Node
deriving DecidableEq

/-- `edge.M2M()`: the relation kind is many-to-many. -/
def Edge.M2M (e : Edge) : Bool := e.rel.rtype == RelType.m2m

/-- `edge.O2M()`: the relation kind is one-to-many. -/
def Edge.O2M (e : Edge) : Bool := e.rel.rtype == RelType.o2m

/-- `edge.M2O()`: the relation kind is many-to-one. -/
def Edge.M2O (e : Edge) : Bool := e.rel.rtype == RelType.m2o

/-- `edge.IsInverse()`: the edge is the inverse direction of a
bidirectionally declared relationship. -/
def Edge.IsInverse (e : Edge) : Bool := e.isInverse

/-- Concatenation of a list of strings in order: the model of a
`strings.Builder` receiving those strings as successive `WriteString` calls. -/
def concatAll : List String → String
  | [] => ""
  | s :: rest => s ++ concatAll rest

/-- `formatType` from the source: `"time.Time"` maps to `"timestamp"`, the
three spellings of the map-to-any type map to `"jsonb"`, and any other
string goes through `strings.ReplaceAll(s, ".", "-")`.  Because the pattern
and the replacement are single characters, `ReplaceAll` replaces each
occurrence of `'.'` characterwise, embedded here as a character map. -/
def formatType (s : String) : String :=
  if s = "time.Time" then "timestamp"
  else if s = "map[string]interface \x7b\x7d" ∨ s = "map[string]interface\x7b\x7d" ∨ s = "map[string]any" then
    "jsonb"
  else ⟨s.data.map fun c => if c = '.' then '-' else c⟩

/-- `getEdgeRelationship` from the source: the Mermaid relationship symbol
chosen by the edge's cardinality. -/
def getEdgeRelationship (e : Edge) : String :=
  if e.O2M then "|o--o\x7b"
  else if e.M2O then "\x7do--o|"
  else if e.M2M then "\x7do--o\x7b"
  else "|o--o|"

/-- `getEdgeRefName` from the source: empty for a nil `Ref`, otherwise
`"-" + ref.Name`. -/
def getEdgeRefName (ref : Option String) : String :=
  match ref with
  | none => ""
  | some name => "-" ++ name

/-- The primary-key attribute line of an entity block:
`fmt.Sprintf("  %s %s PK\n", formatType(node.ID.Type.String()), node.ID.Name)`
when `node.HasOneFieldID()`, nothing otherwise. -/
def pkLine (n : Node) : String :=
  if n.hasOneFieldID then "  " ++ formatType n.id.ftype ++ " " ++ n.id.name ++ " PK\n" else ""

/-- One plain attribute line per field:
`fmt.Sprintf("  %s %s\n", formatType(field.Type.String()), field.Name)`. -/
def fieldLine (f : Field) : String :=
  "  " ++ formatType f.ftype ++ " " ++ f.name ++ "\n"

/-- The contribution of one foreign key to an entity block: skipped when
`UserDefined`, otherwise
`fmt.Sprintf("  %s %s FK\n", formatType(fk.Field.Type.String()), fk.Field.Name)`. -/
def foreignKeyLine (fk : ForeignKey) : String :=
  if fk.userDefined then ""
  else "  " ++ formatType fk.field.ftype ++ " " ++ fk.field.name ++ " FK\n"

/-- The entity block emitted for one node: header, optional PK line, field
lines, non-user-defined foreign-key lines, closing ` }\n\n`. -/
def entityBlock (n : Node) : String :=
  " " ++ n.name ++ " \x7b\n"
    ++ pkLine n
    ++ concatAll (n.fields.map fieldLine)
    ++ concatAll (n.foreignKeys.map foreignKeyLine)
    ++ " \x7d\n\n"

/-- The synthesized join-table block for a many-to-many relation descriptor:
header `" <Table> {\n"`, one `"  int <col> PK,FK\n"` line per relation
column, closing `" }\n\n"`. -/
def joinTableBlock (rel : Rel) : String :=
  " " ++ rel.table ++ " \x7b\n"
    ++ concatAll (rel.columns.map fun column => "  int " ++ column ++ " PK,FK\n")
    ++ " \x7d\n\n"

/-- The join-table synthesis contribution of one edge: the join-table block
when the edge is many-to-many and not the inverse direction, nothing
otherwise. -/
def m2mJoinEmit (e : Edge) : String :=
  if e.M2M && !e.IsInverse then joinTableBlock e.rel else ""

/-- The join-table blocks emitted right after a node's entity block, from
the loop over the node's edges. -/
def nodeJoinTables (n : Node) : String :=
  concatAll (n.edges.map m2mJoinEmit)

/-- The relationship-pass contribution of one edge of node `nodeName`:
a many-to-many edge yields
`" <node> |o--o{ <rel.Table> : <name><refSuffix>\n"` and nothing else
(`continue`); a non-many-to-many inverse edge yields nothing (`continue`);
any other edge yields
`" <node> <symbol> <Type.Name> : <name><refSuffix>\n"`. -/
def relationshipLine (nodeName : String) (e : Edge) : String :=
  if e.M2M then
    " " ++ nodeName ++ " " ++ "|o--o\x7b" ++ " " ++ e.rel.table ++ " : " ++ e.name
      ++ getEdgeRefName e.ref ++ "\n"
  else if e.IsInverse then ""
  else
    " " ++ nodeName ++ " " ++ getEdgeRelationship e ++ " " ++ e.typeName ++ " : " ++ e.name
      ++ getEdgeRefName e.ref ++ "\n"

/-- The second pass of `generateMermaidCode`: for each node, for each of its
edges, the relationship line. -/
def relationshipPass (g : Graph) : String :=
  concatAll (g.nodes.map fun n => concatAll (n.edges.map (relationshipLine n.name)))

/-- `generateMermaidCode` from the source (always returns a nil error since
`strings.Builder.WriteString` cannot fail): the `"erDiagram\n"` header, then
per node its entity block followed by its join-table blocks, then the
relationship pass. -/
def generateMermaidCode (g : Graph) : String :=
  "erDiagram\n"
    ++ concatAll (g.nodes.map fun n => entityBlock n ++ nodeJoinTables n)
    ++ relationshipPass g

/-- Modelled from the spec: the output-kind selector `OutputType` and its
values `Markdown` and `Plain` are declared in this package but outside the
given source file; the spec says any other/unrecognized kind is treated like
plain, which is the switch's `default` branch, represented by `Other`. -/
inductive OutputType
| Markdown
| Plain
| Other
deriving DecidableEq

/-- `addMermaidToType` from the source: `Markdown` wraps the code in a
```` ```mermaid ```` fence, `Plain` and the default branch return it
unchanged. -/
def addMermaidToType (mermaidCode : String) (outputType : OutputType) : String :=
  match outputType with
  | OutputType.Markdown => "```mermaid\n" ++ mermaidCode ++ "\n```"
  | OutputType.Plain => mermaidCode
  | OutputType.Other => mermaidCode

/-- `strings.Index` over characters: the index of the first occurrence of
`pat` in the remaining text, `none` when absent (Go's `-1`).  An empty
pattern is found at index 0, as in Go. -/
def strIndex (pat : List Char) : List Char → Option Nat
  | [] => if pat.isPrefixOf ([] : List Char) then some 0 else none
  | c :: rest =>
    if pat.isPrefixOf (c :: rest) then some 0
    else (strIndex pat rest).map (· + 1)

/-- Outcome of `insertMultiLineString`: the new file content written on
success, the error return (no write), or a runtime slice-bounds panic
(no write) when `startIndex+len(startPattern)+1` exceeds the text length. -/
inductive SpliceResult
| ok (newContent : String)
| err (msg : String)
| sliceOutOfRange
deriving DecidableEq

/-- `insertMultiLineString` from the source, with the file's content passed
in place of the path: find the first occurrences of both patterns; if either
is missing return the error; otherwise write
`fileContent[:startIndex+len(startPattern)+1] + multiLineString + "\n" + fileContent[endIndex:]`,
where the prefix slice panics when its bound exceeds the text length. -/
def insertMultiLineString (fileContent multiLineString startPattern endPattern : String) :
    SpliceResult :=
  match strIndex startPattern.data fileContent.data, strIndex endPattern.data fileContent.data with
  | some startIndex, some endIndex =>
    if startIndex + startPattern.length + 1 ≤ fileContent.length then
      SpliceResult.ok
        ⟨fileContent.data.take (startIndex + startPattern.length + 1)
          ++ multiLineString.data ++ '\n' :: fileContent.data.drop endIndex⟩
    else SpliceResult.sliceOutOfRange
  | _, _ =>
    SpliceResult.err
      ("starting (" ++ startPattern ++ ") or ending (" ++ endPattern
        ++ ") string not found in the file")

/-- The file's on-disk content after a call to `insertMultiLineString`: the
new content on success, the unchanged original on an error return or panic
(the file is written only on the success path). -/
def runInsertMultiLineString (fileContent multiLineString startPattern endPattern : String) :
    String :=
  match insertMultiLineString fileContent multiLineString startPattern endPattern with
  | SpliceResult.ok newContent => newContent
  | SpliceResult.err _ => fileContent
  | SpliceResult.sliceOutOfRange => fileContent

/-- All edges of the graph, in traversal order. -/
def allEdges (g : Graph) : List Edge :=
  (g.nodes.map Node.edges).flatten

/-- The many-to-many edges of the graph whose relation table is `T`. -/
def m2mEdgesFor (g : Graph) (T : String) : List Edge :=
  (allEdges g).filter fun e => e.M2M && e.rel.table == T

/-- The number of join-table blocks the synthesis pass emits for relation
table `T`: one per many-to-many non-inverse edge whose relation table is `T`. -/
def emittedJoinBlocks (g : Graph) (T : String) : Nat :=
  ((allEdges g).filter fun e => (e.M2M && !e.IsInverse) && e.rel.table == T).length

/-! ### Supporting lemmas -/

@[simp]
theorem concatAll_nil : concatAll [] = "" := rfl

@[simp]
theorem concatAll_cons (s : String) (l : List String) :
    concatAll (s :: l) = s ++ concatAll l := rfl

/-- Emitting `f a` for the elements satisfying `p` and nothing for the rest
is the same as emitting `f` over the filtered list. -/
theorem concatAll_map_filter {α : Type} (p : α → Bool) (f g : α → String)
    (h : ∀ a, g a = if p a then f a else "") :
    ∀ l : List α, concatAll (l.map g) = concatAll ((l.filter p).map f)
  | [] => rfl
  | a :: l => by
    rw [List.map_cons, concatAll_cons, h a, concatAll_map_filter p f g h l, List.filter_cons]
    by_cases hp : p a
    · simp [hp]
    · simp [hp]

/-- Splitting the many-to-many edges with relation table `T` by the inverse
flag: the non-inverse ones plus the inverse ones make up all of them. -/
theorem m2m_filter_split (T : String) :
    ∀ l : List Edge,
      (l.filter fun e => (e.M2M && !e.IsInverse) && e.rel.table == T).length
        + (l.filter fun e => e.IsInverse && (e.M2M && e.rel.table == T)).length
      = (l.filter fun e => e.M2M && e.rel.table == T).length
  | [] => rfl
  | a :: l => by
    have ih := m2m_filter_split T l
    cases hm : a.M2M <;> cases hi : a.IsInverse <;> cases ht : a.rel.table == T <;>
      simp [List.filter_cons, hm, hi, ht] <;> omega

/-- The join-table synthesis count as a count of the non-inverse edges among
the table's many-to-many edges. -/
theorem emitted_eq_filter_not_inverse (T : String) :
    ∀ l : List Edge,
      (l.filter fun e => (e.M2M && !e.IsInverse) && e.rel.table == T).length
        = (l.filter fun e => !e.IsInverse && (e.M2M && e.rel.table == T)).length
  | [] => rfl
  | a :: l => by
    have ih := emitted_eq_filter_not_inverse T l
    cases hm : a.M2M <;> cases hi : a.IsInverse <;> cases ht : a.rel.table == T <;>
      simp [List.filter_cons, hm, hi, ht, ih]

/-- `strIndex` finds the first occurrence: the pattern is a prefix of the
text dropped at the returned index and at no earlier index. -/
theorem strIndex_spec (pat : List Char) :
    ∀ (s : List Char) (i : Nat), strIndex pat s = some i →
      pat.isPrefixOf (s.drop i) = true ∧ ∀ j, j < i → pat.isPrefixOf (s.drop j) = false
  | [], i, h => by
    unfold strIndex at h
    by_cases hp : pat.isPrefixOf ([] : List Char)
    · rw [if_pos hp] at h
      obtain rfl : (0 : Nat) = i := Option.some.inj h
      exact ⟨hp, fun j hj => absurd hj (Nat.not_lt_zero j)⟩
    · rw [if_neg hp] at h
      exact absurd h (Option.noConfusion)
  | c :: rest, i, h => by
    unfold strIndex at h
    by_cases hp : pat.isPrefixOf (c :: rest)
    · rw [if_pos hp] at h
      obtain rfl : (0 : Nat) = i := Option.some.inj h
      exact ⟨hp, fun j hj => absurd hj (Nat.not_lt_zero j)⟩
    · rw [if_neg hp] at h
      cases hrec : strIndex pat rest with
      | none => rw [hrec] at h; exact absurd h (Option.noConfusion)
      | some i' =>
        rw [hrec] at h
        obtain rfl : i' + 1 = i := Option.some.inj h
        obtain ⟨h1, h2⟩ := strIndex_spec pat rest i' hrec
        refine ⟨by simpa using h1, ?_⟩
        intro j hj
        cases j with
        | zero => simpa using Bool.not_eq_true _ ▸ (by simpa using hp)
        | succ j' =>
          rw [List.drop_succ_cons]
          exact h2 j' (Nat.lt_of_succ_lt_succ hj)

/-- No `'.'` survives the characterwise dot-to-dash replacement. -/
theorem count_dot_after_map (l : List Char) :
    ((l.map fun c => if c = '.' then '-' else c).count '.') = 0 := by
  induction l with
  | nil => rfl
  | cons c t ih =>
    by_cases hc : c = '.' <;> simp [List.count_cons, hc, ih]

/-- The dot-to-dash replacement turns every `'.'` into a `'-'` and keeps
every preexisting `'-'`. -/
theorem count_dash_after_map (l : List Char) :
    ((l.map fun c => if c = '.' then '-' else c).count '-') = l.count '-' + l.count '.' := by
  induction l with
  | nil => rfl
  | cons c t ih =>
    by_cases hc : c = '.'
    · simp [List.count_cons, hc, ih]
      omega
    · by_cases hd : c = '-' <;> simp [List.count_cons, hc, hd, ih] <;> omega

/-- The default branch of `formatType`, spelled out. -/
theorem formatType_default (s : String) (h1 : s ≠ "time.Time")
    (h2 : s ≠ "map[string]interface \x7b\x7d") (h3 : s ≠ "map[string]interface\x7b\x7d")
    (h4 : s ≠ "map[string]any") :
    formatType s = ⟨s.data.map fun c => if c = '.' then '-' else c⟩ := by
  unfold formatType
  rw [if_neg h1, if_neg ?_]
  rintro (h | h | h)
  exacts [h2 h, h3 h, h4 h]

/-! ### Claim theorems -/

/-- Claim C4: `formatType` maps `"time.Time"` to the token `"timestamp"`,
maps each of the three equivalent spellings of the map-to-any type to the
token `"jsonb"`, and for every other input string replaces each `'.'` with
`'-'`: no `'.'` remains, the output's `'-'` count is the input's `'-'` count
plus its `'.'` count, and in particular an input with `N` dot separators
(and no preexisting dash) yields exactly `N` dash separators. -/
theorem formatType_spec :
    formatType "time.Time" = "timestamp"
    ∧ formatType "map[string]interface \x7b\x7d" = "jsonb"
    ∧ formatType "map[string]interface\x7b\x7d" = "jsonb"
    ∧ formatType "map[string]any" = "jsonb"
    ∧ ∀ s : String, s ≠ "time.Time" → s ≠ "map[string]interface \x7b\x7d" →
        s ≠ "map[string]interface\x7b\x7d" → s ≠ "map[string]any" →
        (formatType s).data.count '.' = 0
        ∧ (formatType s).data.count '-' = s.data.count '-' + s.data.count '.'
        ∧ (s.data.count '-' = 0 → (formatType s).data.count '-' = s.data.count '.') := by
  refine ⟨by decide, by decide, by decide, by decide, ?_⟩
  intro s h1 h2 h3 h4
  rw [formatType_default s h1 h2 h3 h4]
  refine ⟨count_dot_after_map s.data, count_dash_after_map s.data, ?_⟩
  intro h0
  rw [count_dash_after_map s.data, h0, Nat.zero_add]

/-- Claim C4 witness: at the qualified type name `"foo.bar.Baz"` the
flattened token has no dots and exactly two dashes. -/
theorem formatType_spec_witness :
    (formatType "foo.bar.Baz").data.count '.' = 0
    ∧ (formatType "foo.bar.Baz").data.count '-' = 2 := by
  have h := formatType_spec.2.2.2.2 "foo.bar.Baz" (by decide) (by decide) (by decide) (by decide)
  exact ⟨h.1, by decide⟩

/-- Claim C9: the output wrapper returns the diagram text wrapped in a
```` ```mermaid ```` fence for the Markdown kind, and returns it unchanged
for the plain kind and for the default (unrecognized) branch. -/
theorem addMermaidToType_spec (code : String) :
    addMermaidToType code OutputType.Markdown = "```mermaid\n" ++ code ++ "\n```"
    ∧ addMermaidToType code OutputType.Plain = code
    ∧ addMermaidToType code OutputType.Other = code :=
  ⟨rfl, rfl, rfl⟩

/-- Claim C5: in every entity block, a `UserDefined` foreign key contributes
no attribute line and every non-`UserDefined` foreign key contributes
exactly one line `"  <formattedType> <fieldName> FK\n"`: the block's
foreign-key section is exactly one such line per non-user-defined foreign
key, in order. -/
theorem entityBlock_foreignKeys (n : Node) :
    entityBlock n
      = " " ++ n.name ++ " \x7b\n"
          ++ pkLine n
          ++ concatAll (n.fields.map fieldLine)
          ++ concatAll ((n.foreignKeys.filter fun fk => !fk.userDefined).map fun fk =>
                "  " ++ formatType fk.field.ftype ++ " " ++ fk.field.name ++ " FK\n")
          ++ " \x7d\n\n" := by
  unfold entityBlock
  rw [concatAll_map_filter (fun fk => !fk.userDefined)
      (fun fk => "  " ++ formatType fk.field.ftype ++ " " ++ fk.field.name ++ " FK\n")
      foreignKeyLine ?_ n.foreignKeys]
  intro fk
  unfold foreignKeyLine
  cases h : fk.userDefined <;> simp [h]

/-- Claim C2: in the relationship pass, every many-to-many edge — inverse or
not — produces exactly the line
`" <EntityName> |o--o{ <JoinTableName> : <EdgeName><RefSuffix>\n"` and
nothing else, where the suffix is `"-<counterpartName>"` for a non-nil
counterpart reference and empty otherwise. -/
theorem relationshipLine_m2m (nodeName : String) (e : Edge) (h : e.M2M = true) :
    relationshipLine nodeName e
      = " " ++ nodeName ++ " |o--o\x7b " ++ e.rel.table ++ " : " ++ e.name
          ++ getEdgeRefName e.ref ++ "\n"
    ∧ (e.ref = none → getEdgeRefName e.ref = "")
    ∧ (∀ r : String, e.ref = some r → getEdgeRefName e.ref = "-" ++ r) := by
  refine ⟨?_, ?_, ?_⟩
  · unfold relationshipLine
    rw [h]
    simp only [if_true, String.append_assoc]
    rfl
  · intro hr; rw [hr]; rfl
  · intro r hr; rw [hr]; rfl

/-- Claim C2 witness: a concrete many-to-many edge with a counterpart
reference produces exactly its relationship line. -/
theorem relationshipLine_m2m_witness :
    relationshipLine "User"
        ⟨"groups", ⟨RelType.m2m, "user_groups", ["user_id", "group_id"]⟩, false, some "users",
          "Group"⟩
      = " User |o--o\x7b user_groups : groups-users\n" :=
  (relationshipLine_m2m "User" _ (by decide)).1.trans (by decide)

/-- Claim C3: in the relationship pass, a non-many-to-many inverse edge
produces no line, and every non-inverse non-many-to-many edge produces
exactly one line whose symbol is chosen by cardinality: one-to-many
`"|o--o{"`, many-to-one `"}o--o|"`, anything else `"|o--o|"`. -/
theorem relationshipLine_non_m2m (nodeName : String) (e : Edge) (h : e.M2M = false) :
    (e.IsInverse = true → relationshipLine nodeName e = "")
    ∧ (e.IsInverse = false →
        relationshipLine nodeName e
          = " " ++ nodeName ++ " " ++ getEdgeRelationship e ++ " " ++ e.typeName ++ " : "
              ++ e.name ++ getEdgeRefName e.ref ++ "\n")
    ∧ (e.O2M = true → getEdgeRelationship e = "|o--o\x7b")
    ∧ (e.M2O = true → getEdgeRelationship e = "\x7do--o|")
    ∧ (e.O2M = false → e.M2O = false → getEdgeRelationship e = "|o--o|") := by
  refine ⟨?_, ?_, ?_, ?_, ?_⟩
  · intro hi; unfold relationshipLine; rw [h, hi]; simp
  · intro hi; unfold relationshipLine; rw [h, hi]; simp
  · intro ho; unfold getEdgeRelationship; rw [ho]; simp
  · intro hm
    unfold getEdgeRelationship
    have ho : e.O2M = false := by
      unfold Edge.O2M
      unfold Edge.M2O at hm
      cases hr : e.rel.rtype <;> rw [hr] at hm <;> revert hm <;> decide
    rw [ho, hm]; simp
  · intro ho hm; unfold getEdgeRelationship; rw [ho, hm, h]; simp

/-- Claim C3 witness: a concrete non-inverse one-to-many edge produces its
line with the `"|o--o{"` symbol, and a concrete inverse many-to-one edge
produces nothing. -/
theorem relationshipLine_non_m2m_witness :
    relationshipLine "User" ⟨"pets", ⟨RelType.o2m, "pets", []⟩, false, some "owner", "Pet"⟩
      = " User |o--o\x7b Pet : pets-owner\n"
    ∧ relationshipLine "Pet" ⟨"owner", ⟨RelType.m2o, "pets", []⟩, true, some "pets", "User"⟩
      = "" := by
  constructor
  · have h := relationshipLine_non_m2m "User"
      ⟨"pets", ⟨RelType.o2m, "pets", []⟩, false, some "owner", "Pet"⟩ (by decide)
    exact (h.2.1 (by decide)).trans (by decide)
  · have h := relationshipLine_non_m2m "Pet"
      ⟨"owner", ⟨RelType.m2o, "pets", []⟩, true, some "pets", "User"⟩ (by decide)
    exact h.1 (by decide)

/-- Claim C1: under the assumed invariant that the graph's many-to-many
edges for relation table `T` form one pair with exactly one direction marked
inverse (and the same relation descriptor on both sides), the join-table
synthesis of `generateMermaidCode` emits the block for `T` exactly once;
the count is unchanged under any reordering of the pair; and the full output
is the header, then per node its entity block followed by exactly one
join-table block per many-to-many non-inverse edge, then the relationship
pass. -/
theorem joinTable_block_emitted_once (g : Graph) (T : String)
    (hlen : (m2mEdgesFor g T).length = 2)
    (hinv : ((m2mEdgesFor g T).filter fun e => e.IsInverse).length = 1)
    (hsame : ∀ e ∈ m2mEdgesFor g T, ∀ e' ∈ m2mEdgesFor g T, e.rel = e'.rel) :
    emittedJoinBlocks g T = 1
    ∧ (∀ g' : Graph, (m2mEdgesFor g' T).Perm (m2mEdgesFor g T) → emittedJoinBlocks g' T = 1)
    ∧ generateMermaidCode g
      = "erDiagram\n"
          ++ concatAll (g.nodes.map fun n =>
                entityBlock n
                  ++ concatAll ((n.edges.filter fun e => e.M2M && !e.IsInverse).map fun e =>
                        joinTableBlock e.rel))
          ++ relationshipPass g := by
  have key : ∀ g0 : Graph, (m2mEdgesFor g0 T).length = 2 →
      ((m2mEdgesFor g0 T).filter fun e => e.IsInverse).length = 1 →
      emittedJoinBlocks g0 T = 1 := by
    intro g0 h2 h1
    unfold emittedJoinBlocks
    unfold m2mEdgesFor at h1 h2
    rw [List.filter_filter] at h1
    have hs := m2m_filter_split T (allEdges g0)
    omega
  have hn : ∀ n : Node,
      concatAll (n.edges.map m2mJoinEmit)
        = concatAll ((n.edges.filter fun e => e.M2M && !e.IsInverse).map fun e =>
              joinTableBlock e.rel) := by
    intro n
    apply concatAll_map_filter
    intro e
    unfold m2mJoinEmit
    rfl
  refine ⟨key g hlen hinv, ?_, ?_⟩
  · intro g' hperm
    exact key g' (hperm.length_eq.trans hlen)
      (((hperm.filter fun e => e.IsInverse).length_eq).trans hinv)
  · have hfun : (fun n : Node => entityBlock n ++ nodeJoinTables n)
        = (fun n : Node =>
            entityBlock n
              ++ concatAll ((n.edges.filter fun e => e.M2M && !e.IsInverse).map fun e =>
                    joinTableBlock e.rel)) :=
      funext fun n => by unfold nodeJoinTables; rw [hn n]
    unfold generateMermaidCode
    rw [hfun]

/-- Claim C1 witness: a two-node graph whose many-to-many pair over table
`user_groups` lists the forward direction first emits that join-table block
exactly once. -/
theorem joinTable_block_emitted_once_witness :
    emittedJoinBlocks
        (Graph.mk
          [⟨"User", true, ⟨"id", "int"⟩, [], [],
              [⟨"groups", ⟨RelType.m2m, "user_groups", ["user_id", "group_id"]⟩, false,
                some "users", "Group"⟩]⟩,
            ⟨"Group", true, ⟨"id", "int"⟩, [], [],
              [⟨"users", ⟨RelType.m2m, "user_groups", ["user_id", "group_id"]⟩, true,
                some "groups", "User"⟩]⟩])
        "user_groups" = 1 :=
  (joinTable_block_emitted_once _ _ (by decide) (by decide) (by decide)).1

/-- Claim C6: for a text containing both patterns at first occurrences `si`
and `ei`, with at least one character following the start pattern, the
content written back is exactly the original text up to and including the
start pattern plus one following character, then the insertion, then a
newline, then the original text from `ei` onward; and `si`, `ei` really are
the first occurrences. -/
theorem insertMultiLineString_splice (text ins startPat endPat : String) (si ei : Nat)
    (hs : strIndex startPat.data text.data = some si)
    (he : strIndex endPat.data text.data = some ei)
    (hcut : si + startPat.length + 1 ≤ text.length) :
    insertMultiLineString text ins startPat endPat
      = SpliceResult.ok
          ⟨text.data.take (si + startPat.length + 1) ++ ins.data ++ '\n' :: text.data.drop ei⟩
    ∧ startPat.data.isPrefixOf (text.data.drop si) = true
    ∧ (∀ j, j < si → startPat.data.isPrefixOf (text.data.drop j) = false)
    ∧ endPat.data.isPrefixOf (text.data.drop ei) = true
    ∧ (∀ j, j < ei → endPat.data.isPrefixOf (text.data.drop j) = false) := by
  obtain ⟨hs1, hs2⟩ := strIndex_spec startPat.data text.data si hs
  obtain ⟨he1, he2⟩ := strIndex_spec endPat.data text.data ei he
  refine ⟨?_, hs1, hs2, he1, he2⟩
  unfold insertMultiLineString
  rw [hs, he]
  show (if si + startPat.length + 1 ≤ text.length then
      SpliceResult.ok
        ⟨text.data.take (si + startPat.length + 1) ++ ins.data ++ '\n' :: text.data.drop ei⟩
    else SpliceResult.sliceOutOfRange) = _
  rw [if_pos hcut]

/-- Claim C6 witness: a concrete splice with both markers present and a
character after the start marker. -/
theorem insertMultiLineString_splice_witness :
    insertMultiLineString "a<S>b<E>c" "INS" "<S>" "<E>" = SpliceResult.ok "a<S>bINS\n<E>c" :=
  ((insertMultiLineString_splice "a<S>b<E>c" "INS" "<S>" "<E>" 1 5 (by decide) (by decide)
      (by decide)).1).trans (by decide)

/-- Claim C7 (counterexample): splicing `"X"` into
`"A<<<START>>>Z<<<END>>>B"` does not yield the spec's claimed
`"A<<<START>>> X\nZ<<<END>>>B"`. -/
theorem spliceRoundTrip_claimed_output_false :
    insertMultiLineString "A<<<START>>>Z<<<END>>>B" "X" "<<<START>>>" "<<<END>>>"
      ≠ SpliceResult.ok "A<<<START>>> X\nZ<<<END>>>B" := by decide

/-- Claim C7 (amended): splicing `"X"` into `"A<<<START>>>Z<<<END>>>B"`
with markers `<<<START>>>` and `<<<END>>>` yields exactly
`"A<<<START>>>ZX\n<<<END>>>B"`: the one preserved character after the start
marker is `Z`, then the inserted text and a newline, then everything from
the end marker onward. -/
theorem spliceRoundTrip_actual :
    insertMultiLineString "A<<<START>>>Z<<<END>>>B" "X" "<<<START>>>" "<<<END>>>"
      = SpliceResult.ok "A<<<START>>>ZX\n<<<END>>>B" := by decide

/-- Claim C8: when either pattern does not occur, `insertMultiLineString`
returns the not-found error and no write happens: the file's content is
unchanged. -/
theorem insertMultiLineString_missing_marker (text ins startPat endPat : String)
    (h : strIndex startPat.data text.data = none ∨ strIndex endPat.data text.data = none) :
    insertMultiLineString text ins startPat endPat
      = SpliceResult.err
          ("starting (" ++ startPat ++ ") or ending (" ++ endPat
            ++ ") string not found in the file")
    ∧ runInsertMultiLineString text ins startPat endPat = text := by
  have herr : insertMultiLineString text ins startPat endPat
      = SpliceResult.err
          ("starting (" ++ startPat ++ ") or ending (" ++ endPat
            ++ ") string not found in the file") := by
    unfold insertMultiLineString
    cases hA : strIndex startPat.data text.data with
    | none => cases hB : strIndex endPat.data text.data <;> rfl
    | some a =>
      cases hB : strIndex endPat.data text.data with
      | none => rfl
      | some b =>
        exfalso
        rcases h with h | h
        · rw [hA] at h; exact Option.noConfusion h
        · rw [hB] at h; exact Option.noConfusion h
  exact ⟨herr, by unfold runInsertMultiLineString; rw [herr]⟩

/-- Claim C8 witness: a file containing neither marker is returned
unchanged alongside the error. -/
theorem insertMultiLineString_missing_marker_witness :
    insertMultiLineString "hello" "x" "Q" "h"
      = SpliceResult.err "starting (Q) or ending (h) string not found in the file"
    ∧ runInsertMultiLineString "hello" "x" "Q" "h" = "hello" := by
  have h := insertMultiLineString_missing_marker "hello" "x" "Q" "h" (Or.inl (by decide))
  exact ⟨h.1.trans (by decide), h.2⟩

/-- Claim C10: when both patterns occur but no character follows the first
occurrence of the start pattern (it ends at the end of the text), the prefix
slice bound `si + len(start) + 1` exceeds the text length, so the operation
is not safe: it ends in a slice-bounds panic rather than a write.  The
splice requires the precondition that at least one character follows the
start pattern. -/
theorem insertMultiLineString_no_char_after_start (text ins startPat endPat : String)
    (si ei : Nat)
    (hs : strIndex startPat.data text.data = some si)
    (he : strIndex endPat.data text.data = some ei)
    (hend : si + startPat.length = text.length) :
    insertMultiLineString text ins startPat endPat = SpliceResult.sliceOutOfRange
    ∧ runInsertMultiLineString text ins startPat endPat = text := by
  have hp : insertMultiLineString text ins startPat endPat = SpliceResult.sliceOutOfRange := by
    unfold insertMultiLineString
    rw [hs, he]
    show (if si + startPat.length + 1 ≤ text.length then
        SpliceResult.ok
          ⟨text.data.take (si + startPat.length + 1) ++ ins.data ++ '\n' :: text.data.drop ei⟩
      else SpliceResult.sliceOutOfRange) = _
    rw [if_neg (by omega)]
  exact ⟨hp, by unfold runInsertMultiLineString; rw [hp]⟩

/-- Claim C10 witness: the start marker `"A"` ends the text `"xxA"`, so the
call panics and writes nothing. -/
theorem insertMultiLineString_no_char_after_start_witness :
    insertMultiLineString "xxA" "i" "A" "x" = SpliceResult.sliceOutOfRange
    ∧ runInsertMultiLineString "xxA" "i" "A" "x" = "xxA" :=
  insertMultiLineString_no_char_after_start "xxA" "i" "A" "x" 2 0 (by decide) (by decide)
    (by decide)

end Entmaid
